import Mathlib

/-!
Shallow embedding of the Fock-basis engine of `cmpy/core/basis.py`:
binary spin states, creation/annihilation operators, spin-state
enumeration, the filling partition of the Fock basis, and the sector
containers (`BasisSector`, `SpinSector`, `FockBasis`).

Python integers are modelled as `Nat` (states) and `Int` (fillings and
the `sigma`/`delta` parameters, which may be negative).  Fallible Python
code is modelled with `Option` (the `None` sentinel) and
`Except PyError` (raised exceptions).
-/

namespace Cmpy

/-- Python exceptions that the modelled code can raise. -/
inductive PyError where
  | typeError
  | valueError
deriving DecidableEq, Repr

/-- Spin constants: `UP, DN = +1, -1`. -/
def UP : Int := 1

/-- Spin constants: `UP, DN = +1, -1`. -/
def DN : Int := -1

/-- Number of set bits of a natural number, the value of
`bin(self).count("1")` (`SpinState.n`).  Implemented with a fuel
argument so that it is structurally recursive and kernel-reducible;
`popcount_rec` below shows it satisfies the binary recurrence. -/
def popcountAux : Nat → Nat → Nat
  | 0, _ => 0
  | fuel + 1, n => if n = 0 then 0 else popcountAux fuel (n / 2) + n % 2

/-- Population count of a binary state. -/
def popcount (n : Nat) : Nat := popcountAux n n

/-- `create(num, pos)`: `op = 1 << pos; if not op & num: return num ^ op;
return None`. -/
def create (num pos : Nat) : Option Nat :=
  let op := 1 <<< pos
  if op &&& num = 0 then some (num ^^^ op) else none

/-- `annihilate(num, pos)`: `op = 1 << pos; if op & num: return num ^ op;
return None`. -/
def annihilate (num pos : Nat) : Option Nat :=
  let op := 1 <<< pos
  if op &&& num ≠ 0 then some (num ^^^ op) else none

/-- Models the coercion `SpinState(x)` applied to the result of the
module-level operator: `int(None)` raises `TypeError`, any integer is
accepted unchanged. -/
def spinStateCoe : Option Nat → Except PyError Nat
  | some v => Except.ok v
  | none => Except.error PyError.typeError

/-- `SpinState.create(self, pos)`: `return self.__class__(create(self, pos))`. -/
def SpinState.create (s pos : Nat) : Except PyError Nat :=
  spinStateCoe (Cmpy.create s pos)

/-- `SpinState.annihilate(self, pos)`: `return self.__class__(annihilate(self, pos))`. -/
def SpinState.annihilate (s pos : Nat) : Except PyError Nat :=
  spinStateCoe (Cmpy.annihilate s pos)

/-- Python `int(s, base=2)` on a list of binary digits: raises
`ValueError` on the empty string, otherwise folds up the digits
most-significant first. -/
def intBase2 (s : List Bool) : Except PyError Nat :=
  if s.isEmpty then Except.error PyError.valueError
  else Except.ok (s.foldl (fun acc b => 2 * acc + (if b then 1 else 0)) 0)

/-- `create_spinstates(num_sites)`:
`max_int = int("1" * num_sites, base=2);
return [SpinState(num) for num in range(max_int + 1)]`.
(The side effect on the global `BITS` only affects label rendering and
is not modelled.)  For `num_sites = 0` the parsed string is empty and
`int` raises `ValueError`, modelled as `none`. -/
def create_spinstates (num_sites : Nat) : Option (List Nat) :=
  match intBase2 (List.replicate num_sites true) with
  | Except.ok max_int => some (List.range (max_int + 1))
  | Except.error _ => none

/-- The composite dataclass `State(up, dn)`. -/
structure State where
  up : Nat
  dn : Nat
deriving DecidableEq, Repr

/-- `BasisSector(num_sites, n_up, n_dn, up_states, dn_states)`.  The
filling fields are `Option Int` because `FockBasis.get_sector` passes
its (possibly `None`, possibly negative) filling arguments through. -/
structure BasisSector where
  num_sites : Nat
  n_up : Option Int
  n_dn : Option Int
  up_states : List Nat
  dn_states : List Nat
deriving DecidableEq, Repr

/-- `BasisSector.size = len(up_states) * len(dn_states)`. -/
def BasisSector.size (s : BasisSector) : Nat :=
  s.up_states.length * s.dn_states.length

/-- `BasisSector.states`: `for up, dn in product(up_states, dn_states):
yield State(up, dn)` — the generator materialised as a list, outer loop
over `up_states`, inner loop over `dn_states`. -/
def BasisSector.statesList (s : BasisSector) : List State :=
  s.up_states.flatMap (fun u => s.dn_states.map (fun d => State.mk u d))

/-- `BasisSector.get_state_index(idx_up, idx_dn) = idx_up * self.size + idx_dn`. -/
def BasisSector.get_state_index (s : BasisSector) (idx_up idx_dn : Nat) : Nat :=
  idx_up * s.size + idx_dn

/-- `BasisSector.get_spin_states(state_idx)`:
`idx_up = state_idx // self.size; idx_dn = state_idx % self.size;
return self.up_states[idx_up], self.dn_states[idx_dn]`.
List indexing out of range raises in Python, modelled as `none`. -/
def BasisSector.get_spin_states (s : BasisSector) (state_idx : Nat) : Option (Nat × Nat) :=
  match s.up_states[state_idx / s.size]?, s.dn_states[state_idx % s.size]? with
  | some u, some d => some (u, d)
  | _, _ => none

/-- `SpinSector(num_sites, n, states, sigma)`. -/
structure SpinSector where
  num_sites : Nat
  n : Option Int
  sigma : Int
  spinstates : List Nat
deriving DecidableEq, Repr

/-- The `_sectors` attribute of `FockBasis`.  The constructor assigns
the *class object* `defaultdict` (not an instance) as a placeholder;
`init_basis` replaces it by an actual dictionary mapping each filling
to its list of states.  Calling `.get` on the class object raises
`TypeError`. -/
inductive SectorMap where
  | uninit
  | table (keys : List Nat) (buckets : Nat → List Nat)

/-- `FockBasis`: `num_sites`, `_size`, `_spinstates`, `_sectors`,
`_fillings`. -/
structure FockBasis where
  num_sites : Nat
  size : Nat
  spinstates : List Nat
  sectors : SectorMap
  fillings : List Nat

/-- One step of the `init_basis` partition loop:
`sectors[state.n].append(state)` on a `defaultdict(list)`, modelled as
a total function from fillings to bucket lists. -/
def addToSectors (buckets : Nat → List Nat) (s : Nat) : Nat → List Nat :=
  fun k => if k = popcount s then buckets k ++ [s] else buckets k

/-- The bucket contents of the `defaultdict` after the `init_basis`
loop `for state in spinstates: sectors[state.n].append(state)`. -/
def buildBuckets (states : List Nat) : Nat → List Nat :=
  states.foldl addToSectors (fun _ => [])

/-- One step of the key-set evolution of the same loop: a `defaultdict`
adds a key (at the end, insertion ordered) the first time it is
accessed. -/
def addKey (keys : List Nat) (s : Nat) : List Nat :=
  if popcount s ∈ keys then keys else keys ++ [popcount s]

/-- The insertion-ordered key list of the `defaultdict` after the
`init_basis` loop; `_fillings = list(self._sectors.keys())`. -/
def buildKeys (states : List Nat) : List Nat :=
  states.foldl addKey []

/-- `FockBasis.init_basis(num_sites)`: regenerates the enumeration, the
filling partition, the key list and the full-space size
`num_spinstates * num_spinstates`.  All five attributes are overwritten,
so the prior state of the basis is irrelevant.  Fails (propagating the
`ValueError` of `create_spinstates`, modelled as `none`) for
`num_sites = 0`. -/
def FockBasis.init_basis (_b : FockBasis) (num_sites : Nat) : Option FockBasis :=
  match create_spinstates num_sites with
  | none => none
  | some spinstates =>
      some (FockBasis.mk num_sites (spinstates.length * spinstates.length)
        spinstates
        (SectorMap.table (buildKeys spinstates) (buildBuckets spinstates))
        (buildKeys spinstates))

/-- The attribute values assigned by `FockBasis.__init__` before the
optional `init_basis` call: `_size = 0`, `_spinstates = list()`,
`_sectors = defaultdict` (the class object), `_fillings = list()`. -/
def emptyFockBasis (num_sites : Nat) : FockBasis :=
  FockBasis.mk num_sites 0 [] SectorMap.uninit []

/-- `FockBasis.__init__(self, num_sites=0)`: stores the placeholder
attributes, then `if num_sites: self.init_basis(num_sites)` — for the
default `num_sites = 0` the truthiness test fails and `init_basis`
never runs. -/
def fockBasis (num_sites : Nat) : Option FockBasis :=
  if num_sites = 0 then some (emptyFockBasis num_sites)
  else (emptyFockBasis num_sites).init_basis num_sites

/-- The `_fillings` list viewed as Python ints, as used by the `in`
checks of `get_next_sector`. -/
def fillingsInt (b : FockBasis) : List Int :=
  b.fillings.map (fun n => (Nat.cast n : Int))

/-- `FockBasis.get_spinstates(n=None)`:
`return self._sectors.get(n, self._spinstates)`.
On an uninitialized basis `self._sectors` is the `defaultdict` class
object and the call raises `TypeError`.  On an initialized basis,
`dict.get` returns the bucket when the key `n` is present (an integer
`n ≥ 0` that occurs in the key list) and the full spin-state list
otherwise (in particular for `n = None` and for out-of-range ints). -/
def FockBasis.get_spinstates (b : FockBasis) (n : Option Int) : Except PyError (List Nat) :=
  match b.sectors with
  | SectorMap.uninit => Except.error PyError.typeError
  | SectorMap.table keys buckets =>
      Except.ok (match n with
        | none => b.spinstates
        | some k => if 0 ≤ k ∧ k.toNat ∈ keys then buckets k.toNat else b.spinstates)

/-- `FockBasis.get_spin_sector(n=None, sigma=UP)`. -/
def FockBasis.get_spin_sector (b : FockBasis) (n : Option Int) (sigma : Int) :
    Except PyError SpinSector :=
  match b.get_spinstates n with
  | Except.error e => Except.error e
  | Except.ok states => Except.ok (SpinSector.mk b.num_sites n sigma states)

/-- `FockBasis.get_sector(n_up=None, n_dn=None, sector=None)`: identity
passthrough when both fillings are `None` and a sector is given,
otherwise a `BasisSector` built from two `get_spinstates` lookups. -/
def FockBasis.get_sector (b : FockBasis) (n_up n_dn : Option Int)
    (sector : Option BasisSector) : Except PyError BasisSector :=
  match n_up, n_dn, sector with
  | none, none, some s => Except.ok s
  | nu, nd, _ =>
      match b.get_spinstates nu with
      | Except.error e => Except.error e
      | Except.ok ups =>
          match b.get_spinstates nd with
          | Except.error e => Except.error e
          | Except.ok dns => Except.ok (BasisSector.mk b.num_sites nu nd ups dns)

/-- Membership test `x in self.fillings` for a possibly-`None` filling:
`None` is never an element of the integer key list. -/
def optMemFillings (b : FockBasis) : Option Int → Bool
  | some k => decide (k ∈ fillingsInt b)
  | none => false

/-- `FockBasis.get_next_sector(n_up=None, n_dn=None, sector=None,
sigma=UP, delta=1)`: take the fillings from `sector` when given, shift
the species selected by `sigma` by `delta` (raising `TypeError` when
that filling is `None`, since Python evaluates `None + delta`), return
`None` when either resulting filling is not a key, and otherwise the
`get_sector` of the shifted fillings. -/
def FockBasis.get_next_sector (b : FockBasis) (n_up n_dn : Option Int)
    (sector : Option BasisSector) (sigma delta : Int) :
    Except PyError (Option BasisSector) :=
  let nu := match sector with | some s => s.n_up | none => n_up
  let nd := match sector with | some s => s.n_dn | none => n_dn
  if sigma = UP then
    match nu with
    | none => Except.error PyError.typeError
    | some u =>
        let u' := u + delta
        if decide (u' ∈ fillingsInt b) && optMemFillings b nd then
          match b.get_sector (some u') nd none with
          | Except.error e => Except.error e
          | Except.ok s => Except.ok (some s)
        else Except.ok none
  else
    match nd with
    | none => Except.error PyError.typeError
    | some d =>
        let d' := d + delta
        if optMemFillings b nu && decide (d' ∈ fillingsInt b) then
          match b.get_sector nu (some d') none with
          | Except.error e => Except.error e
          | Except.ok s => Except.ok (some s)
        else Except.ok none

/-- The list of states of one filling sector of an initialized basis:
the spin states of `N` sites with popcount `k`, in enumeration order. -/
def fillingStates (N k : Nat) : List Nat :=
  (List.range (2 ^ N)).filter (fun s => popcount s == k)

/-- The `FockBasis` value produced by `init_basis(N)` for `N ≠ 0`. -/
def initFockBasis (N : Nat) : FockBasis :=
  FockBasis.mk N (2 ^ N * 2 ^ N) (List.range (2 ^ N))
    (SectorMap.table (buildKeys (List.range (2 ^ N))) (buildBuckets (List.range (2 ^ N))))
    (buildKeys (List.range (2 ^ N)))

/-!  Popcount lemmas. -/

theorem popcountAux_congr (f₁ : Nat) : ∀ (f₂ n : Nat), n ≤ f₁ → n ≤ f₂ →
    popcountAux f₁ n = popcountAux f₂ n := by
  induction f₁ with
  | zero =>
    intro f₂ n h₁ _
    have hn : n = 0 := Nat.le_zero.mp h₁
    subst hn
    cases f₂ <;> simp [popcountAux]
  | succ f ih =>
    intro f₂ n h₁ h₂
    by_cases hn : n = 0
    · subst hn
      cases f₂ <;> simp [popcountAux]
    · obtain ⟨g, rfl⟩ : ∃ g, f₂ = g + 1 := by
        cases f₂ with
        | zero => omega
        | succ g => exact ⟨g, rfl⟩
      simp only [popcountAux, if_neg hn]
      congr 1
      exact ih g (n / 2) (by omega) (by omega)

theorem popcount_rec (n : Nat) : popcount n = popcount (n / 2) + n % 2 := by
  cases n with
  | zero => rfl
  | succ m =>
    show popcountAux (m + 1) (m + 1) = popcountAux ((m + 1) / 2) ((m + 1) / 2) + (m + 1) % 2
    simp only [popcountAux, if_neg (Nat.succ_ne_zero m)]
    congr 1
    exact popcountAux_congr m _ _ (by omega) (le_refl _)

theorem mod_two_eq_toNat_testBit (n : Nat) : n % 2 = (n.testBit 0).toNat := by
  rcases Nat.mod_two_eq_zero_or_one n with h | h <;> simp [Nat.testBit_zero, h]

theorem popcount_rec_bit (n : Nat) : popcount n = popcount (n / 2) + (n.testBit 0).toNat := by
  rw [popcount_rec, mod_two_eq_toNat_testBit]

theorem xor_div_two (a b : Nat) : (a ^^^ b) / 2 = a / 2 ^^^ b / 2 := by
  apply Nat.eq_of_testBit_eq
  intro i
  simp [Nat.testBit_div_two, Nat.testBit_xor]

theorem popcount_xor_two_pow (i : Nat) : ∀ n : Nat, n.testBit i = false →
    popcount (n ^^^ 2 ^ i) = popcount n + 1 := by
  induction i with
  | zero =>
    intro n h
    have h1 : (n ^^^ 2 ^ 0) / 2 = n / 2 := by
      rw [xor_div_two]
      norm_num
    have h2 : (n ^^^ 2 ^ 0).testBit 0 = true := by
      rw [Nat.testBit_xor, h, Nat.testBit_two_pow]
      rfl
    rw [popcount_rec_bit (n ^^^ 2 ^ 0), h1, h2, popcount_rec_bit n, h]
    simp
  | succ i ih =>
    intro n h
    have h' : (n / 2).testBit i = false := by
      rw [Nat.testBit_div_two]
      exact h
    have hdiv : (n ^^^ 2 ^ (i + 1)) / 2 = n / 2 ^^^ 2 ^ i := by
      rw [xor_div_two]
      congr 1
      rw [pow_succ]
      exact Nat.mul_div_cancel _ two_pos
    have hbit : (n ^^^ 2 ^ (i + 1)).testBit 0 = n.testBit 0 := by
      rw [Nat.testBit_xor, Nat.testBit_two_pow]
      cases n.testBit 0 <;> rfl
    rw [popcount_rec_bit (n ^^^ 2 ^ (i + 1)), hdiv, hbit, ih (n / 2) h', popcount_rec_bit n]
    omega

theorem popcount_xor_two_pow_true (i n : Nat) (h : n.testBit i = true) :
    popcount (n ^^^ 2 ^ i) + 1 = popcount n := by
  have hb : (n ^^^ 2 ^ i).testBit i = false := by
    simp [Nat.testBit_xor, h, Nat.testBit_two_pow]
  have hc := popcount_xor_two_pow i (n ^^^ 2 ^ i) hb
  rw [Nat.xor_cancel_right] at hc
  exact hc.symm

/-!  The branch conditions of `create` and `annihilate`. -/

theorem create_eq (num pos : Nat) :
    create num pos = if num.testBit pos = false then some (num ^^^ 2 ^ pos) else none := by
  show (if 1 <<< pos &&& num = 0 then some (num ^^^ 1 <<< pos) else none) = _
  rw [Nat.one_shiftLeft, Nat.two_pow_and]
  cases h : num.testBit pos <;>
    simp [h, (Nat.two_pow_pos pos).ne']

theorem annihilate_eq (num pos : Nat) :
    annihilate num pos = if num.testBit pos = true then some (num ^^^ 2 ^ pos) else none := by
  show (if 1 <<< pos &&& num ≠ 0 then some (num ^^^ 1 <<< pos) else none) = _
  rw [Nat.one_shiftLeft, Nat.two_pow_and]
  cases h : num.testBit pos <;>
    simp [h, (Nat.two_pow_pos pos).ne']

/-- Claim C2: `create(s, i)` succeeds exactly when bit `i` of `s` is `0`,
returning `s` with bit `i` set (so the popcount grows by one), and
returns `None` iff bit `i` is already `1`; `annihilate(s, i)` succeeds
exactly when bit `i` is `1`, returning `s` with bit `i` cleared, and
returns `None` iff bit `i` is `0`.  (Both operations are pure functions
of their integer arguments; the embedding has no mutation.) -/
theorem create_annihilate_correct (s i : Nat) :
    (create s i = none ↔ s.testBit i = true)
    ∧ (annihilate s i = none ↔ s.testBit i = false)
    ∧ (s.testBit i = false →
        ∃ t, create s i = some t ∧ t.testBit i = true
          ∧ (∀ j, j ≠ i → t.testBit j = s.testBit j)
          ∧ popcount t = popcount s + 1)
    ∧ (s.testBit i = true →
        ∃ t, annihilate s i = some t ∧ t.testBit i = false
          ∧ (∀ j, j ≠ i → t.testBit j = s.testBit j)
          ∧ popcount t + 1 = popcount s) := by
  refine ⟨?_, ?_, ?_, ?_⟩
  · rw [create_eq]
    cases h : s.testBit i <;> simp [h]
  · rw [annihilate_eq]
    cases h : s.testBit i <;> simp [h]
  · intro h
    refine ⟨s ^^^ 2 ^ i, by rw [create_eq, if_pos h], ?_, ?_,
      popcount_xor_two_pow i s h⟩
    · simp [Nat.testBit_xor, h, Nat.testBit_two_pow]
    · intro j hj
      simp [Nat.testBit_xor, Nat.testBit_two_pow, Ne.symm hj]
  · intro h
    refine ⟨s ^^^ 2 ^ i, by rw [annihilate_eq, if_pos h], ?_, ?_,
      popcount_xor_two_pow_true i s h⟩
    · simp [Nat.testBit_xor, h, Nat.testBit_two_pow]
    · intro j hj
      simp [Nat.testBit_xor, Nat.testBit_two_pow, Ne.symm hj]

/-- Witness for C2 at `s = 2`, `i = 0`: the create clause applies. -/
theorem create_annihilate_correct_witness :
    Nat.testBit 2 0 = false
    ∧ (∃ t, create 2 0 = some t ∧ t.testBit 0 = true
        ∧ (∀ j, j ≠ 0 → t.testBit j = Nat.testBit 2 j)
        ∧ popcount t = popcount 2 + 1) :=
  ⟨by decide, (create_annihilate_correct 2 0).2.2.1 (by decide)⟩

/-- Claim C9: when `create(s, i)` succeeds, `annihilate(create(s, i), i) == s`. -/
theorem create_annihilate_roundtrip (s i : Nat) (h : s.testBit i = false) :
    ∃ t, create s i = some t ∧ annihilate t i = some s := by
  refine ⟨s ^^^ 2 ^ i, by rw [create_eq, if_pos h], ?_⟩
  have hb : (s ^^^ 2 ^ i).testBit i = true := by
    simp [Nat.testBit_xor, h, Nat.testBit_two_pow]
  rw [annihilate_eq, if_pos hb, Nat.xor_cancel_right]

/-- Witness for C9 at `s = 0`, `i = 2`. -/
theorem create_annihilate_roundtrip_witness :
    Nat.testBit 0 2 = false ∧ ∃ t, create 0 2 = some t ∧ annihilate t 2 = some 0 :=
  ⟨by decide, create_annihilate_roundtrip 0 2 (by decide)⟩

/-- Claim C5 is a code bug: the module-level `create`/`annihilate` do
return the `None` sentinel, but the `SpinState` method wraps the result
in `self.__class__(...)`, and `SpinState(None)` raises `TypeError` —
so the method raises on the failure path instead of returning the
sentinel.  Failing input: `SpinState(1).create(0)`. -/
theorem spinState_create_raises :
    SpinState.create 1 0 = Except.error PyError.typeError
    ∧ create 1 0 = none
    ∧ SpinState.annihilate 2 0 = Except.error PyError.typeError
    ∧ annihilate 2 0 = none :=
  ⟨rfl, rfl, rfl, rfl⟩

/-!  Sector flattening (C1) and the Cartesian product of a sector (C6). -/

/-- Claim C1: `get_state_index(idx_up, idx_dn) = idx_up * size + idx_dn`
with `size = |up_states| * |dn_states|`, and `get_spin_states` inverts
it on in-range index pairs, returning
`(up_states[idx_up], dn_states[idx_dn])`. -/
theorem get_state_index_spec (bs : BasisSector) (i j : Nat)
    (hi : i < bs.up_states.length) (hj : j < bs.dn_states.length) :
    bs.get_state_index i j = i * (bs.up_states.length * bs.dn_states.length) + j
    ∧ bs.get_spin_states (bs.get_state_index i j)
        = some (bs.up_states.get ⟨i, hi⟩, bs.dn_states.get ⟨j, hj⟩) := by
  have hup : 0 < bs.up_states.length := by omega
  have hsz : 0 < bs.size := Nat.mul_pos hup (by omega)
  have hj' : j < bs.size := lt_of_lt_of_le hj (Nat.le_mul_of_pos_left _ hup)
  have hdiv : (i * bs.size + j) / bs.size = i := by
    rw [Nat.mul_comm i bs.size, Nat.mul_add_div hsz, Nat.div_eq_of_lt hj', Nat.add_zero]
  have hmod : (i * bs.size + j) % bs.size = j := by
    rw [Nat.mul_comm i bs.size, Nat.mul_add_mod]
    exact Nat.mod_eq_of_lt hj'
  refine ⟨rfl, ?_⟩
  unfold BasisSector.get_spin_states BasisSector.get_state_index
  rw [hdiv, hmod, List.getElem?_eq_getElem hi, List.getElem?_eq_getElem hj]
  simp [List.get_eq_getElem]

/-- Witness for C1 on the sector `(n_up, n_dn) = (1, 1)` of two sites,
at `idx_up = 1`, `idx_dn = 0`: the flat index is `1 * 4 + 0 = 4` and
`get_spin_states(4) = (2, 1)`. -/
theorem get_state_index_spec_witness :
    (1 < ([1, 2] : List Nat).length) ∧ (0 < ([1, 2] : List Nat).length)
    ∧ ((BasisSector.mk 2 (some 1) (some 1) [1, 2] [1, 2]).get_state_index 1 0
          = 1 * (([1, 2] : List Nat).length * ([1, 2] : List Nat).length) + 0
        ∧ (BasisSector.mk 2 (some 1) (some 1) [1, 2] [1, 2]).get_spin_states
            ((BasisSector.mk 2 (some 1) (some 1) [1, 2] [1, 2]).get_state_index 1 0)
          = some (2, 1)) :=
  ⟨by decide, by decide,
    get_state_index_spec (BasisSector.mk 2 (some 1) (some 1) [1, 2] [1, 2]) 1 0
      (by decide) (by decide)⟩

theorem statesList_length (bs : BasisSector) : bs.statesList.length = bs.size := by
  have h : ∀ (us ds : List Nat),
      (us.flatMap (fun u => ds.map (fun d => State.mk u d))).length = us.length * ds.length := by
    intro us ds
    induction us with
    | nil => simp
    | cons u t ih =>
      simp only [List.flatMap_cons, List.length_append, List.length_map, ih, List.length_cons]
      ring
  exact h _ _

/-- Claim C6: iterating a `BasisSector`'s `states` yields the Cartesian
product of `up_states` and `dn_states` (outer loop up, inner loop dn)
with length `size`; concretely, for two sites and sector `(1, 1)`,
`up_states = [1, 2]`, `dn_states = [1, 2]`, `size = 4`, and the states
are `(1,1), (1,2), (2,1), (2,2)` in that order. -/
theorem basisSector_states_product :
    (∀ bs : BasisSector, bs.statesList.length = bs.size)
    ∧ (∃ b sec, fockBasis 2 = some b
        ∧ b.get_sector (some 1) (some 1) none = Except.ok sec
        ∧ sec.up_states = [1, 2] ∧ sec.dn_states = [1, 2] ∧ sec.size = 4
        ∧ sec.statesList = [State.mk 1 1, State.mk 1 2, State.mk 2 1, State.mk 2 2]) :=
  ⟨statesList_length,
    ⟨initFockBasis 2, BasisSector.mk 2 (some 1) (some 1) [1, 2] [1, 2],
      rfl, rfl, rfl, rfl, rfl, by decide⟩⟩

/-!  The filling partition built by `init_basis` (fold lemmas). -/

theorem foldl_addToSectors (l : List Nat) : ∀ (m : Nat → List Nat) (k : Nat),
    (l.foldl addToSectors m) k = m k ++ l.filter (fun s => popcount s == k) := by
  induction l with
  | nil =>
    intro m k
    simp
  | cons s t ih =>
    intro m k
    rw [List.foldl_cons, ih]
    by_cases h : k = popcount s
    · simp [addToSectors, List.filter_cons, h]
    · simp [addToSectors, List.filter_cons, h, Ne.symm h]

theorem buildBuckets_eq (l : List Nat) (k : Nat) :
    buildBuckets l k = l.filter (fun s => popcount s == k) := by
  unfold buildBuckets
  rw [foldl_addToSectors]
  simp

theorem foldl_addKey_mem (l : List Nat) : ∀ (ks : List Nat) (k : Nat),
    k ∈ l.foldl addKey ks ↔ k ∈ ks ∨ ∃ s ∈ l, popcount s = k := by
  induction l with
  | nil =>
    intro ks k
    simp
  | cons s t ih =>
    intro ks k
    rw [List.foldl_cons, ih]
    have hstep : k ∈ addKey ks s ↔ k ∈ ks ∨ popcount s = k := by
      unfold addKey
      by_cases h : popcount s ∈ ks
      · simp only [if_pos h]
        exact ⟨Or.inl, fun hk => hk.elim id (fun he => he ▸ h)⟩
      · simp [h, List.mem_append, eq_comm]
    rw [hstep]
    simp only [List.mem_cons]
    constructor
    · rintro ((hk | hk) | ⟨s', hs', hk⟩)
      · exact Or.inl hk
      · exact Or.inr ⟨s, Or.inl rfl, hk⟩
      · exact Or.inr ⟨s', Or.inr hs', hk⟩
    · rintro (hk | ⟨s', (rfl | hs'), hk⟩)
      · exact Or.inl (Or.inl hk)
      · exact Or.inl (Or.inr hk)
      · exact Or.inr ⟨s', hs', hk⟩

theorem buildKeys_mem (l : List Nat) (k : Nat) :
    k ∈ buildKeys l ↔ ∃ s ∈ l, popcount s = k := by
  unfold buildKeys
  rw [foldl_addKey_mem]
  simp

theorem foldl_addKey_nodup (l : List Nat) : ∀ ks : List Nat, ks.Nodup →
    (l.foldl addKey ks).Nodup := by
  induction l with
  | nil =>
    intro ks h
    simpa
  | cons s t ih =>
    intro ks h
    rw [List.foldl_cons]
    apply ih
    unfold addKey
    by_cases hm : popcount s ∈ ks
    · simpa [hm]
    · simp [hm, List.nodup_append, h]

theorem buildKeys_nodup (l : List Nat) : (buildKeys l).Nodup :=
  foldl_addKey_nodup l [] List.nodup_nil

/-!  The spin-state enumeration (C3). -/

theorem foldl_bits_ones (N : Nat) : ∀ a : Nat,
    (List.replicate N true).foldl (fun acc b => 2 * acc + (if b then 1 else 0)) a
      = (a + 1) * 2 ^ N - 1 := by
  induction N with
  | zero =>
    intro a
    simp
  | succ n ih =>
    intro a
    rw [List.replicate_succ, List.foldl_cons]
    have hf : (2 * a + if true = true then 1 else 0) = 2 * a + 1 := rfl
    rw [hf, ih]
    have h2 : (2 * a + 1 + 1) * 2 ^ n = (a + 1) * 2 ^ (n + 1) := by ring
    rw [h2]

theorem create_spinstates_eq (N : Nat) (h : N ≠ 0) :
    create_spinstates N = some (List.range (2 ^ N)) := by
  unfold create_spinstates intBase2
  have hne : (List.replicate N true).isEmpty = false := by
    cases N with
    | zero => omega
    | succ n => simp [List.replicate_succ]
  rw [hne]
  simp only [Bool.false_eq_true, if_false]
  rw [foldl_bits_ones N 0]
  have h1 : (0 + 1) * 2 ^ N - 1 + 1 = 2 ^ N := by
    have := Nat.one_le_two_pow (n := N)
    omega
  rw [h1]

/-- Claim C3 is corrected: as stated it includes `N = 0`, where
`create_spinstates` raises `ValueError` (it parses the empty string
`"1" * 0` with `int(..., base=2)`).  Amended claim, proved here: for
every site count `N ≥ 1` (in particular `N` in `[1, 8]`), the
enumeration yields exactly `2^N` distinct states, each in
`[0, 2^N − 1]`, ordered by increasing integer value. -/
theorem create_spinstates_spec (N : Nat) (h : 1 ≤ N) :
    ∃ l, create_spinstates N = some l ∧ l.length = 2 ^ N ∧ l.Nodup
      ∧ (∀ s ∈ l, s < 2 ^ N) ∧ l.Pairwise (· < ·) := by
  refine ⟨List.range (2 ^ N), create_spinstates_eq N (by omega), ?_, ?_, ?_, ?_⟩
  · simp
  · exact List.nodup_range _
  · intro s hs
    exact List.mem_range.mp hs
  · exact List.pairwise_lt_range _

/-- Counterexample to C3 as stated: at `N = 0` the enumeration does not
yield `2^0 = 1` state — it fails (Python raises `ValueError`). -/
theorem create_spinstates_zero_fails : create_spinstates 0 = none := rfl

/-- Witness for (amended) C3 at `N = 3`. -/
theorem create_spinstates_spec_witness :
    1 ≤ 3 ∧ ∃ l, create_spinstates 3 = some l ∧ l.length = 2 ^ 3 ∧ l.Nodup
      ∧ (∀ s ∈ l, s < 2 ^ 3) ∧ l.Pairwise (· < ·) :=
  ⟨by decide, create_spinstates_spec 3 (by decide)⟩

/-!  The value produced by `init_basis`. -/

theorem init_basis_eq (b0 b : FockBasis) (N : Nat) (h : b0.init_basis N = some b) :
    N ≠ 0 ∧ b = initFockBasis N := by
  unfold FockBasis.init_basis at h
  by_cases hN : N = 0
  · subst hN
    rw [create_spinstates_zero_fails] at h
    cases h
  · rw [create_spinstates_eq N hN] at h
    have h2 : some (FockBasis.mk N
        ((List.range (2 ^ N)).length * (List.range (2 ^ N)).length)
        (List.range (2 ^ N))
        (SectorMap.table (buildKeys (List.range (2 ^ N)))
          (buildBuckets (List.range (2 ^ N))))
        (buildKeys (List.range (2 ^ N)))) = some b := h
    obtain rfl := Option.some.inj h2
    refine ⟨hN, ?_⟩
    unfold initFockBasis
    simp [List.length_range]

/-!  Popcount bounds, used to characterise the filling keys. -/

theorem popcount_le_of_lt_two_pow (k : Nat) : ∀ n : Nat, n < 2 ^ k → popcount n ≤ k := by
  induction k with
  | zero =>
    intro n hn
    have hn0 : n = 0 := by
      simp at hn
      omega
    subst hn0
    exact Nat.le_refl _
  | succ k ih =>
    intro n hn
    rw [popcount_rec]
    have hdiv : n / 2 < 2 ^ k := by
      rw [pow_succ] at hn
      omega
    have := ih (n / 2) hdiv
    omega

theorem popcount_two_pow_sub_one (k : Nat) : popcount (2 ^ k - 1) = k := by
  induction k with
  | zero => rfl
  | succ k ih =>
    have h2 : (1 : Nat) ≤ 2 ^ k := Nat.one_le_two_pow
    have hs : 2 ^ (k + 1) - 1 = 2 * (2 ^ k - 1) + 1 := by
      rw [pow_succ]
      omega
    rw [hs, popcount_rec]
    have hdiv : (2 * (2 ^ k - 1) + 1) / 2 = 2 ^ k - 1 := by omega
    have hmod : (2 * (2 ^ k - 1) + 1) % 2 = 1 := by omega
    rw [hdiv, hmod, ih]

/-- The keys of the filling partition of `N ≥ 1` sites are exactly the
fillings `0, …, N`. -/
theorem buildKeys_range_mem (N k : Nat) :
    k ∈ buildKeys (List.range (2 ^ N)) ↔ k ≤ N := by
  rw [buildKeys_mem]
  constructor
  · rintro ⟨s, hs, rfl⟩
    exact popcount_le_of_lt_two_pow N s (List.mem_range.mp hs)
  · intro hk
    refine ⟨2 ^ k - 1, List.mem_range.mpr ?_, popcount_two_pow_sub_one k⟩
    have h1 : (2 : Nat) ^ k ≤ 2 ^ N := Nat.pow_le_pow_right (by omega) hk
    have h2 : (1 : Nat) ≤ 2 ^ k := Nat.one_le_two_pow
    omega

/-- Claim C4: after `init_basis(N)`, the filling map is a set partition
of the full `2^N` enumeration — the union of all filling buckets has no
duplicates and contains exactly the enumerated states, every state in
bucket `k` has popcount `k`, and each bucket is in enumeration order
(ascending integer value). -/
theorem init_basis_partition (b0 b : FockBasis) (N : Nat) (h : b0.init_basis N = some b) :
    ∃ keys buckets, b.sectors = SectorMap.table keys buckets ∧ b.fillings = keys
      ∧ (keys.flatMap buckets).Nodup
      ∧ (∀ s, s ∈ keys.flatMap buckets ↔ s ∈ List.range (2 ^ N))
      ∧ (∀ k ∈ keys, ∀ s ∈ buckets k, popcount s = k)
      ∧ (∀ k ∈ keys, (buckets k).Pairwise (· < ·)) := by
  obtain ⟨hN, rfl⟩ := init_basis_eq b0 b N h
  refine ⟨buildKeys (List.range (2 ^ N)), buildBuckets (List.range (2 ^ N)),
    rfl, rfl, ?_, ?_, ?_, ?_⟩
  · rw [List.nodup_flatMap]
    constructor
    · intro k _
      rw [buildBuckets_eq]
      exact (List.nodup_range _).filter _
    · have hne := buildKeys_nodup (List.range (2 ^ N))
      refine List.Pairwise.imp ?_ hne
      intro k₁ k₂ hne12 a h1 h2
      rw [buildBuckets_eq] at h1 h2
      have e1 := beq_iff_eq.mp (List.mem_filter.mp h1).2
      have e2 := beq_iff_eq.mp (List.mem_filter.mp h2).2
      exact hne12 (e1.symm.trans e2)
  · intro s
    rw [List.mem_flatMap]
    constructor
    · rintro ⟨k, _, hs⟩
      rw [buildBuckets_eq] at hs
      exact (List.mem_filter.mp hs).1
    · intro hs
      refine ⟨popcount s, (buildKeys_mem _ _).mpr ⟨s, hs, rfl⟩, ?_⟩
      rw [buildBuckets_eq]
      exact List.mem_filter.mpr ⟨hs, beq_self_eq_true _⟩
  · intro k _ s hs
    rw [buildBuckets_eq] at hs
    exact beq_iff_eq.mp (List.mem_filter.mp hs).2
  · intro k _
    rw [buildBuckets_eq]
    exact (List.pairwise_lt_range _).filter _

/-- Witness for C4 at `N = 2`. -/
theorem init_basis_partition_witness :
    (emptyFockBasis 2).init_basis 2 = some (initFockBasis 2)
    ∧ ∃ keys buckets,
        (initFockBasis 2).sectors = SectorMap.table keys buckets
        ∧ (initFockBasis 2).fillings = keys
        ∧ (keys.flatMap buckets).Nodup
        ∧ (∀ s, s ∈ keys.flatMap buckets ↔ s ∈ List.range (2 ^ 2))
        ∧ (∀ k ∈ keys, ∀ s ∈ buckets k, popcount s = k)
        ∧ (∀ k ∈ keys, (buckets k).Pairwise (· < ·)) :=
  ⟨rfl, init_basis_partition (emptyFockBasis 2) (initFockBasis 2) 2 rfl⟩

/-!  Lookups on an initialized basis. -/

theorem get_spinstates_init (N : Nat) (k : Int) :
    (initFockBasis N).get_spinstates (some k)
      = Except.ok (if 0 ≤ k ∧ k.toNat ≤ N then fillingStates N k.toNat
          else List.range (2 ^ N)) := by
  show Except.ok (if 0 ≤ k ∧ k.toNat ∈ buildKeys (List.range (2 ^ N))
      then buildBuckets (List.range (2 ^ N)) k.toNat
      else List.range (2 ^ N)) = _
  simp only [buildKeys_range_mem, buildBuckets_eq]
  rfl

theorem mem_fillingsInt_init (N : Nat) (x : Int) :
    x ∈ fillingsInt (initFockBasis N) ↔ 0 ≤ x ∧ x ≤ (N : Int) := by
  unfold fillingsInt initFockBasis
  simp only [List.mem_map, buildKeys_range_mem]
  constructor
  · rintro ⟨m, hm, rfl⟩
    show 0 ≤ (m : Int) ∧ (m : Int) ≤ (N : Int)
    omega
  · intro hx
    refine ⟨x.toNat, by omega, ?_⟩
    show ((x.toNat : Nat) : Int) = x
    omega

theorem get_sector_init_some (N : Nat) (u d : Int) :
    (initFockBasis N).get_sector (some u) (some d) none
      = Except.ok (BasisSector.mk N (some u) (some d)
          (if 0 ≤ u ∧ u.toNat ≤ N then fillingStates N u.toNat else List.range (2 ^ N))
          (if 0 ≤ d ∧ d.toNat ≤ N then fillingStates N d.toNat else List.range (2 ^ N))) := by
  show (match (initFockBasis N).get_spinstates (some u) with
    | Except.error e => Except.error e
    | Except.ok ups =>
        match (initFockBasis N).get_spinstates (some d) with
        | Except.error e => Except.error e
        | Except.ok dns =>
            Except.ok (BasisSector.mk (initFockBasis N).num_sites (some u) (some d)
              ups dns)) = _
  rw [get_spinstates_init, get_spinstates_init]
  rfl

theorem get_next_sector_init_up (N : Nat) (u d delta : Int) :
    (initFockBasis N).get_next_sector (some u) (some d) none UP delta
      = if 0 ≤ u + delta ∧ u + delta ≤ (N : Int) ∧ 0 ≤ d ∧ d ≤ (N : Int)
        then Except.ok (some (BasisSector.mk N (some (u + delta)) (some d)
            (fillingStates N (u + delta).toNat) (fillingStates N d.toNat)))
        else Except.ok none := by
  have hfill := mem_fillingsInt_init N
  show (if decide ((u + delta) ∈ fillingsInt (initFockBasis N))
        && optMemFillings (initFockBasis N) (some d) then
      match (initFockBasis N).get_sector (some (u + delta)) (some d) none with
      | Except.error e => Except.error e
      | Except.ok s => Except.ok (some s)
    else Except.ok none) = _
  by_cases hc : 0 ≤ u + delta ∧ u + delta ≤ (N : Int) ∧ 0 ≤ d ∧ d ≤ (N : Int)
  · have h1 : decide ((u + delta) ∈ fillingsInt (initFockBasis N)) = true :=
      decide_eq_true ((hfill _).mpr ⟨hc.1, hc.2.1⟩)
    have h2 : optMemFillings (initFockBasis N) (some d) = true := by
      show decide (d ∈ fillingsInt (initFockBasis N)) = true
      exact decide_eq_true ((hfill _).mpr ⟨hc.2.2.1, hc.2.2.2⟩)
    rw [h1, h2, if_pos hc]
    simp only [Bool.and_self]
    rw [if_pos trivial, get_sector_init_some,
      if_pos (⟨hc.1, by omega⟩ : 0 ≤ u + delta ∧ (u + delta).toNat ≤ N),
      if_pos (⟨hc.2.2.1, by omega⟩ : 0 ≤ d ∧ d.toNat ≤ N)]
  · have h1 : (decide ((u + delta) ∈ fillingsInt (initFockBasis N))
        && optMemFillings (initFockBasis N) (some d)) = false := by
      show (decide ((u + delta) ∈ fillingsInt (initFockBasis N))
        && decide (d ∈ fillingsInt (initFockBasis N))) = false
      rcases Decidable.em ((u + delta) ∈ fillingsInt (initFockBasis N)) with hP | hP
      · rcases Decidable.em (d ∈ fillingsInt (initFockBasis N)) with hR | hR
        · exfalso
          rw [hfill] at hP hR
          exact hc ⟨hP.1, hP.2, hR.1, hR.2⟩
        · simp [hR]
      · simp [hP]
    rw [h1, if_neg hc, if_neg Bool.false_ne_true]

theorem get_next_sector_init_dn (N : Nat) (u d delta : Int) :
    (initFockBasis N).get_next_sector (some u) (some d) none DN delta
      = if 0 ≤ d + delta ∧ d + delta ≤ (N : Int) ∧ 0 ≤ u ∧ u ≤ (N : Int)
        then Except.ok (some (BasisSector.mk N (some u) (some (d + delta))
            (fillingStates N u.toNat) (fillingStates N (d + delta).toNat)))
        else Except.ok none := by
  have hfill := mem_fillingsInt_init N
  show (if optMemFillings (initFockBasis N) (some u)
        && decide ((d + delta) ∈ fillingsInt (initFockBasis N)) then
      match (initFockBasis N).get_sector (some u) (some (d + delta)) none with
      | Except.error e => Except.error e
      | Except.ok s => Except.ok (some s)
    else Except.ok none) = _
  by_cases hc : 0 ≤ d + delta ∧ d + delta ≤ (N : Int) ∧ 0 ≤ u ∧ u ≤ (N : Int)
  · have h1 : decide ((d + delta) ∈ fillingsInt (initFockBasis N)) = true :=
      decide_eq_true ((hfill _).mpr ⟨hc.1, hc.2.1⟩)
    have h2 : optMemFillings (initFockBasis N) (some u) = true := by
      show decide (u ∈ fillingsInt (initFockBasis N)) = true
      exact decide_eq_true ((hfill _).mpr ⟨hc.2.2.1, hc.2.2.2⟩)
    rw [h1, h2, if_pos hc]
    simp only [Bool.and_self]
    rw [if_pos trivial, get_sector_init_some,
      if_pos (⟨hc.2.2.1, by omega⟩ : 0 ≤ u ∧ u.toNat ≤ N),
      if_pos (⟨hc.1, by omega⟩ : 0 ≤ d + delta ∧ (d + delta).toNat ≤ N)]
  · have h1 : (optMemFillings (initFockBasis N) (some u)
        && decide ((d + delta) ∈ fillingsInt (initFockBasis N))) = false := by
      show (decide (u ∈ fillingsInt (initFockBasis N))
        && decide ((d + delta) ∈ fillingsInt (initFockBasis N))) = false
      rcases Decidable.em (u ∈ fillingsInt (initFockBasis N)) with hP | hP
      · rcases Decidable.em ((d + delta) ∈ fillingsInt (initFockBasis N)) with hR | hR
        · exfalso
          rw [hfill] at hP hR
          exact hc ⟨hR.1, hR.2, hP.1, hP.2⟩
        · simp [hR]
      · simp [hP]
    rw [h1, if_neg hc, if_neg Bool.false_ne_true]

/-- Claim C7: on an initialized basis with fillings `n_up, n_dn` in
`[0, N]`, `get_next_sector` shifts the filling of the species selected
by `sigma` by `delta` and returns the corresponding sector, and it
returns the `None` sentinel exactly when the shifted filling leaves
`[0, N]`. -/
theorem get_next_sector_spec (b0 b : FockBasis) (N : Nat) (h : b0.init_basis N = some b)
    (n_up n_dn : Nat) (hu : n_up ≤ N) (hd : n_dn ≤ N) (delta : Int) :
    (b.get_next_sector (some (n_up : Int)) (some (n_dn : Int)) none UP delta
      = if 0 ≤ (n_up : Int) + delta ∧ (n_up : Int) + delta ≤ (N : Int)
        then Except.ok (some (BasisSector.mk N (some ((n_up : Int) + delta))
            (some (n_dn : Int))
            (fillingStates N ((n_up : Int) + delta).toNat) (fillingStates N n_dn)))
        else Except.ok none)
    ∧ (b.get_next_sector (some (n_up : Int)) (some (n_dn : Int)) none DN delta
      = if 0 ≤ (n_dn : Int) + delta ∧ (n_dn : Int) + delta ≤ (N : Int)
        then Except.ok (some (BasisSector.mk N (some (n_up : Int))
            (some ((n_dn : Int) + delta))
            (fillingStates N n_up) (fillingStates N ((n_dn : Int) + delta).toNat)))
        else Except.ok none) := by
  obtain ⟨hN, rfl⟩ := init_basis_eq b0 b N h
  constructor
  · rw [get_next_sector_init_up]
    have hcond : (0 ≤ (n_up : Int) + delta ∧ (n_up : Int) + delta ≤ (N : Int)
          ∧ 0 ≤ (n_dn : Int) ∧ (n_dn : Int) ≤ (N : Int))
        ↔ (0 ≤ (n_up : Int) + delta ∧ (n_up : Int) + delta ≤ (N : Int)) := by
      constructor
      · rintro ⟨h1, h2, _, _⟩
        exact ⟨h1, h2⟩
      · rintro ⟨h1, h2⟩
        exact ⟨h1, h2, by omega, by omega⟩
    simp only [hcond, Int.toNat_natCast]
  · rw [get_next_sector_init_dn]
    have hcond : (0 ≤ (n_dn : Int) + delta ∧ (n_dn : Int) + delta ≤ (N : Int)
          ∧ 0 ≤ (n_up : Int) ∧ (n_up : Int) ≤ (N : Int))
        ↔ (0 ≤ (n_dn : Int) + delta ∧ (n_dn : Int) + delta ≤ (N : Int)) := by
      constructor
      · rintro ⟨h1, h2, _, _⟩
        exact ⟨h1, h2⟩
      · rintro ⟨h1, h2⟩
        exact ⟨h1, h2, by omega, by omega⟩
    simp only [hcond, Int.toNat_natCast]

/-- Witness for C7 at `N = 2`, `n_up = n_dn = 1`, `delta = 1`: shifting
up gives the `(2, 1)` sector (the if-condition holds), matching the
spec's concrete scenario. -/
theorem get_next_sector_spec_witness :
    (emptyFockBasis 2).init_basis 2 = some (initFockBasis 2)
    ∧ 1 ≤ 2 ∧ 1 ≤ 2
    ∧ ((initFockBasis 2).get_next_sector (some ((1 : Nat) : Int)) (some ((1 : Nat) : Int))
          none UP 1
        = if 0 ≤ ((1 : Nat) : Int) + 1 ∧ ((1 : Nat) : Int) + 1 ≤ ((2 : Nat) : Int)
          then Except.ok (some (BasisSector.mk 2 (some (((1 : Nat) : Int) + 1))
              (some ((1 : Nat) : Int)) (fillingStates 2 (((1 : Nat) : Int) + 1).toNat)
              (fillingStates 2 1)))
          else Except.ok none) :=
  ⟨rfl, by decide, by decide,
    (get_next_sector_spec (emptyFockBasis 2) (initFockBasis 2) 2 rfl 1 1
      (by decide) (by decide) 1).1⟩

/-- Claim C8: on an initialized basis, a spin-state lookup whose filling
is not an enumerated key — including the default `None` — does not
raise: it falls back to the full unfiltered spin-state list, and
`get_sector` with `None` or out-of-range fillings builds its sector
over the complete single-species basis. -/
theorem get_spinstates_fallback (b0 b : FockBasis) (N : Nat) (h : b0.init_basis N = some b) :
    b.get_spinstates none = Except.ok b.spinstates
    ∧ (∀ k : Int, k < 0 ∨ (N : Int) < k → b.get_spinstates (some k) = Except.ok b.spinstates)
    ∧ b.spinstates = List.range (2 ^ N)
    ∧ b.get_sector none none none
        = Except.ok (BasisSector.mk N none none b.spinstates b.spinstates)
    ∧ (∀ k : Int, k < 0 ∨ (N : Int) < k →
        b.get_sector (some k) (some k) none
          = Except.ok (BasisSector.mk N (some k) (some k) b.spinstates b.spinstates)) := by
  obtain ⟨hN, rfl⟩ := init_basis_eq b0 b N h
  refine ⟨rfl, ?_, rfl, rfl, ?_⟩
  · intro k hk
    rw [get_spinstates_init, if_neg (show ¬(0 ≤ k ∧ k.toNat ≤ N) by omega)]
    rfl
  · intro k hk
    rw [get_sector_init_some, if_neg (show ¬(0 ≤ k ∧ k.toNat ≤ N) by omega)]
    rfl

/-- Witness for C8 at `N = 2`, with the out-of-range filling `k = 5`. -/
theorem get_spinstates_fallback_witness :
    (emptyFockBasis 2).init_basis 2 = some (initFockBasis 2)
    ∧ (initFockBasis 2).get_spinstates none = Except.ok (initFockBasis 2).spinstates
    ∧ (initFockBasis 2).get_spinstates (some 5) = Except.ok (initFockBasis 2).spinstates :=
  ⟨rfl, (get_spinstates_fallback (emptyFockBasis 2) (initFockBasis 2) 2 rfl).1,
    (get_spinstates_fallback (emptyFockBasis 2) (initFockBasis 2) 2 rfl).2.1 5
      (by decide)⟩

theorem init_basis_some (b0 : FockBasis) (N : Nat) (hN : N ≠ 0) :
    b0.init_basis N = some (initFockBasis N) := by
  unfold FockBasis.init_basis
  rw [create_spinstates_eq N hN]
  unfold initFockBasis
  simp [List.length_range]

/-- Claim C10: a `FockBasis` built with the default `num_sites = 0`
never runs `init_basis`: its sector map is left as the `defaultdict`
class object, every later `get_spinstates` / `get_sector` /
`get_spin_sector` call raises `TypeError` (never returning an empty
result), and the object becomes usable only through an explicit
`init_basis` call with a positive site count. -/
theorem uninitialized_fockBasis (b : FockBasis) (h : fockBasis 0 = some b) :
    b.sectors = SectorMap.uninit
    ∧ (∀ n, b.get_spinstates n = Except.error PyError.typeError)
    ∧ (∀ n_up n_dn, b.get_sector n_up n_dn none = Except.error PyError.typeError)
    ∧ (∀ n sigma, b.get_spin_sector n sigma = Except.error PyError.typeError)
    ∧ (∀ M : Nat, M ≠ 0 → ∃ b', b.init_basis M = some b'
        ∧ b'.sectors ≠ SectorMap.uninit) := by
  have hb : b = emptyFockBasis 0 := by
    have h2 : some (emptyFockBasis 0) = some b := h
    exact (Option.some.inj h2).symm
  subst hb
  refine ⟨rfl, fun n => rfl, ?_, fun n sigma => rfl, ?_⟩
  · intro nu nd
    cases nu <;> cases nd <;> rfl
  · intro M hM
    refine ⟨initFockBasis M, init_basis_some _ M hM, by simp [initFockBasis]⟩

/-- Witness for C10: the constructed object with `num_sites = 0`. -/
theorem uninitialized_fockBasis_witness :
    fockBasis 0 = some (emptyFockBasis 0)
    ∧ (emptyFockBasis 0).sectors = SectorMap.uninit
    ∧ (emptyFockBasis 0).get_spinstates none = Except.error PyError.typeError :=
  ⟨rfl, (uninitialized_fockBasis (emptyFockBasis 0) rfl).1,
    (uninitialized_fockBasis (emptyFockBasis 0) rfl).2.1 none⟩

end Cmpy
